import Mathlib

/-!
Shallow embedding of the query synchronization and lifecycle engine of
`leptos-query` (file `src/query_executor.rs`), together with proofs of the
frozen specification claims.

Modelling conventions:
- Instants and durations are natural numbers of milliseconds; the current
  time is an explicit `now` parameter everywhere the Rust code consults the
  clock (`get_instant`).
- The asynchronous executor (`create_executor`) is split into its two
  synchronous phases: the guard/transition phase that runs up to the `await`
  point (`create_executor_start`), and the resolution phase that runs when
  the fetch future completes (`create_executor_resolve`).
- Reactive effects become explicit step functions on explicit state; timers
  become entries of an explicit armed-timer list with unique identifiers.
-/

namespace LeptosQuery

/-- `QueryData` from the repository: a fetched value together with the
instant at which it was produced. -/
structure QueryData (V : Type) where
  data : V
  updated_at : Nat
deriving Repr, DecidableEq

/-- `QueryState` from the repository: the per-key state machine. `Loaded`,
`Fetching` and `Invalid` carry the last `QueryData` (value and timestamp). -/
inductive QueryState (V : Type) where
  | Created
  | Loading
  | Loaded (d : QueryData V)
  | Fetching (d : QueryData V)
  | Invalid (d : QueryData V)
deriving Repr, DecidableEq

/-- A fetch is in flight exactly in the `Loading` and `Fetching` states. -/
def QueryState.inFlight {V : Type} : QueryState V → Bool
  | .Loading => true
  | .Fetching _ => true
  | _ => false

/-- The synchronous start phase of the executor produced by
`create_executor` (`src/query_executor.rs` lines 39-68): if fetching is
globally suppressed the run is a no-op; otherwise the current state is
consulted, `Loading`/`Fetching` states are left untouched with no fetch
started, `Created` transitions to `Loading`, and `Loaded d`/`Invalid d`
transition to `Fetching d`.  The returned boolean records whether the fetch
function was invoked (the task reached its `await` point). -/
def create_executor_start {V : Type} (suppressed : Bool) (s : QueryState V) :
    QueryState V × Bool :=
  if suppressed then (s, false)
  else
    match s with
    | .Fetching d => (.Fetching d, false)
    | .Loading => (.Loading, false)
    | .Created => (.Loading, true)
    | .Loaded d => (.Fetching d, true)
    | .Invalid d => (.Fetching d, true)

/-- The resolution phase of the executor (`src/query_executor.rs` lines
51-54 and 59-62): when the fetch future completes with value `v`, the
current instant is stamped and the state is set to `Loaded` unconditionally,
ignoring whatever the state signal holds at that moment. -/
def create_executor_resolve {V : Type} (v : V) (now : Nat) : QueryState V :=
  .Loaded ⟨v, now⟩

/-- `n` successive executor trigger runs (without the in-flight fetch
resolving in between), returning the final state and the total number of
fetch-function invocations performed. -/
def triggerN {V : Type} : QueryState V → Nat → QueryState V × Nat
  | s, 0 => (s, 0)
  | s, n + 1 =>
    let r := create_executor_start false s
    let rest := triggerN r.1 n
    (rest.1, (if r.2 then 1 else 0) + rest.2)

/-- Modelled from the spec: `Query::mark_invalid` (file `query.rs`, not
under `src/`).  External invalidation marks a settled `Loaded` value as
`Invalid`, preserving the last known value; invalidating before the first
load is a no-op (there is no value to preserve), and a query whose fetch is
in flight is left untouched — its pending resolution supersedes the signal,
which is what makes Scenario F's exactly-once behaviour possible. -/
def mark_invalid {V : Type} : QueryState V → QueryState V
  | .Loaded d => .Invalid d
  | s => s

/-- The condition under which the `ensure_not_invalid` monitor
(`src/query_executor.rs` lines 106-119) triggers the executor: it fires
exactly when the observed state is `Invalid`, with no other input. -/
def ensure_not_invalid_fires {V : Type} : QueryState V → Bool
  | .Invalid _ => true
  | _ => false

/-- One external invalidation signal followed by the synchronous reaction of
the `ensure_not_invalid` monitor: the state is marked invalid, and if the
resulting state is `Invalid` the monitor runs the executor.  Returns the
resulting state and the number of fetch-function invocations started. -/
def invalidate_signal {V : Type} (s : QueryState V) : QueryState V × Nat :=
  let s1 := mark_invalid s
  if ensure_not_invalid_fires s1 then
    let r := create_executor_start false s1
    (r.1, if r.2 then 1 else 0)
  else
    (s1, 0)

/-- C1: while a fetch is in flight (`Loading` or `Fetching`), an executor
run neither changes the state nor invokes the fetch function; consequently a
sequence of triggers from an in-flight state performs zero invocations, and
from a not-in-flight state any positive number of triggers performs exactly
one invocation and leaves the query in flight until resolution. -/
theorem claim_C1_executor_dedup {V : Type} :
    (∀ s : QueryState V, s.inFlight = true →
      create_executor_start false s = (s, false)) ∧
    (∀ (s : QueryState V) (n : Nat), s.inFlight = true →
      triggerN s n = (s, 0)) ∧
    (∀ (s : QueryState V) (n : Nat), s.inFlight = false →
      (triggerN s (n + 1)).2 = 1 ∧ ((triggerN s (n + 1)).1).inFlight = true) := by
  have hstep : ∀ s : QueryState V, s.inFlight = true →
      create_executor_start false s = (s, false) := by
    intro s hs
    cases s <;> simp_all [QueryState.inFlight, create_executor_start]
  have hrun : ∀ (n : Nat) (s : QueryState V), s.inFlight = true →
      triggerN s n = (s, 0) := by
    intro n
    induction n with
    | zero => intro s _; rfl
    | succ m ih =>
      intro s hs
      simp [triggerN, hstep s hs, ih s hs]
  refine ⟨hstep, fun s n hs => hrun n s hs, ?_⟩
  intro s n hs
  cases s with
  | Created =>
    simp [triggerN, create_executor_start, hrun n, QueryState.inFlight]
  | Loading => simp [QueryState.inFlight] at hs
  | Loaded d =>
    simp [triggerN, create_executor_start, hrun n, QueryState.inFlight]
  | Fetching d => simp [QueryState.inFlight] at hs
  | Invalid d =>
    simp [triggerN, create_executor_start, hrun n, QueryState.inFlight]

/-- Witness for C1 at concrete inputs: from the in-flight state `Loading`
three triggers are all no-ops, and from `Created` four triggers perform
exactly one fetch invocation and leave the query in flight. -/
theorem claim_C1_executor_dedup_witness :
    triggerN (V := Nat) .Loading 3 = (.Loading, 0) ∧
    (triggerN (V := Nat) .Created 4).2 = 1 ∧
    ((triggerN (V := Nat) .Created 4).1).inFlight = true := by
  refine ⟨claim_C1_executor_dedup.2.1 .Loading 3 rfl, ?_⟩
  exact claim_C1_executor_dedup.2.2 .Created 3 rfl

/-- C3: an executor run that starts a fetch transitions `Created` to
`Loading`, and `Loaded d`/`Invalid d` to `Fetching d` preserving the prior
data `d`; resolution always writes `Loaded` with the fetched value and the
current timestamp, regardless of any state (such as `Invalid`) set while the
fetch was in flight. -/
theorem claim_C3_executor_transitions {V : Type} :
    (create_executor_start (V := V) false .Created = (.Loading, true)) ∧
    (∀ d : QueryData V, create_executor_start false (.Loaded d) = (.Fetching d, true)) ∧
    (∀ d : QueryData V, create_executor_start false (.Invalid d) = (.Fetching d, true)) ∧
    (∀ (v : V) (now : Nat), create_executor_resolve v now = .Loaded ⟨v, now⟩) ∧
    (∀ (v : V) (now : Nat) (d : QueryData V),
      create_executor_resolve v now ≠ QueryState.Invalid d) := by
  refine ⟨rfl, fun d => rfl, fun d => rfl, fun v now => rfl, ?_⟩
  intro v now d
  intro h
  cases h

/-- C5: the invalidation monitor fires exactly on `Invalid` states (its
condition reads nothing but the state, so the staleness window is ignored),
and signalling invalidation twice on a `Loaded` query before the resulting
fetch resolves yields exactly one fetch-function invocation: the first
signal moves the query to `Fetching d` via the executor, and the second is
absorbed (the in-flight guard leaves the state untouched). -/
theorem claim_C5_invalidation_monitor {V : Type} :
    (∀ d : QueryData V, ensure_not_invalid_fires (.Invalid d) = true) ∧
    (ensure_not_invalid_fires (V := V) .Created = false) ∧
    (ensure_not_invalid_fires (V := V) .Loading = false) ∧
    (∀ d : QueryData V, ensure_not_invalid_fires (.Loaded d) = false) ∧
    (∀ d : QueryData V, ensure_not_invalid_fires (.Fetching d) = false) ∧
    (∀ d : QueryData V,
      invalidate_signal (.Loaded d) = (.Fetching d, 1) ∧
      invalidate_signal (.Fetching d) = (.Fetching d, 0) ∧
      (invalidate_signal (invalidate_signal (QueryState.Loaded d)).1).2 +
        (invalidate_signal (QueryState.Loaded d)).2 = 1) := by
  refine ⟨fun d => rfl, rfl, rfl, fun d => rfl, fun d => rfl, ?_⟩
  intro d
  refine ⟨rfl, rfl, rfl⟩

/-- Modelled from the spec: `util::time_until_stale` (file `util.rs`, not
under `src/`).  The remaining time until a timestamped value becomes stale
is `updated_at + window − now`, floored at zero (spec sections 4.5 and 4.7:
remaining = updated_at + window − now); the current instant, read internally
by the Rust helper, is an explicit parameter here. -/
def time_until_stale (last_updated : Nat) (timeout : Nat) (now : Nat) : Nat :=
  last_updated + timeout - now

/-- The condition under which the `ensure_not_stale` monitor
(`src/query_executor.rs` lines 85-103) triggers the executor: both
`updated_at` (from the current state) and `stale_time` must be present, and
the remaining time until stale must be zero. -/
def ensure_not_stale_fires (updated_at : Option Nat) (stale_time : Option Nat)
    (now : Nat) : Bool :=
  match updated_at, stale_time with
  | some u, some st => time_until_stale u st now == 0
  | _, _ => false

/-- The timeout computed by one run of the `sync_refetch` effect
(`src/query_executor.rs` lines 122-148): when both `updated_at` and
`refetch_interval` are present, a single timer of duration
`time_until_stale updated_at refetch_interval now` is armed whose callback
runs the executor; otherwise no timer is armed. -/
def sync_refetch_timeout (updated_at : Option Nat) (refetch_interval : Option Nat)
    (now : Nat) : Option Nat :=
  match updated_at, refetch_interval with
  | some u, some i => some (time_until_stale u i now)
  | _, _ => none

/-- C4: the staleness monitor triggers the executor iff both `updated_at`
and `stale_after` are present and `now − updated_at ≥ stale_after`
(remaining time until stale is zero); with `stale_after` = 5s and last
update at `t0`, it does not fire at `t0+3s` and fires at `t0+5s`. -/
theorem claim_C4_staleness_monitor :
    (∀ u st now : Nat, u ≤ now →
      (ensure_not_stale_fires (some u) (some st) now = true ↔ st ≤ now - u)) ∧
    (∀ (st_time : Option Nat) (now : Nat),
      ensure_not_stale_fires none st_time now = false) ∧
    (∀ (u now : Nat), ensure_not_stale_fires (some u) none now = false) ∧
    (∀ t0 : Nat,
      ensure_not_stale_fires (some t0) (some 5000) (t0 + 3000) = false ∧
      ensure_not_stale_fires (some t0) (some 5000) (t0 + 5000) = true) := by
  refine ⟨?_, ?_, ?_, ?_⟩
  · intro u st now h
    simp only [ensure_not_stale_fires, time_until_stale, beq_iff_eq]
    omega
  · intro st_time now
    cases st_time <;> rfl
  · intro u now
    rfl
  · intro t0
    constructor
    · rw [Bool.eq_false_iff]
      simp only [ensure_not_stale_fires, time_until_stale, ne_eq, beq_iff_eq]
      omega
    · simp only [ensure_not_stale_fires, time_until_stale, beq_iff_eq]
      omega

/-- Witness for C4 at concrete inputs: with last update at 0 and a 5000 ms
staleness window, the monitor fires at time 5000 (5000 ≤ 5000 − 0). -/
theorem claim_C4_staleness_monitor_witness :
    (0 : Nat) ≤ 5000 ∧ (5000 : Nat) ≤ 5000 - 0 ∧
    ensure_not_stale_fires (some 0) (some 5000) 5000 = true := by
  refine ⟨by decide, by decide, ?_⟩
  exact (claim_C4_staleness_monitor.1 0 5000 5000 (by decide)).2 (by decide)

/-- C6: when both `updated_at` and `refetch_every` are present, the interval
scheduler arms exactly one timer (the single `Option` produced by the run)
of duration `updated_at + refetch_every − now`, so its absolute fire instant
is `updated_at + refetch_every` — measured from the latest update; with a
fetch completing at 2100 ms and a 2000 ms interval, the next fetch fires at
4100 ms, not on the 4000 ms wall-clock grid.  If either value is absent, no
timer is armed. -/
theorem claim_C6_refetch_interval :
    (∀ u i now : Nat, now ≤ u + i →
      sync_refetch_timeout (some u) (some i) now = some (u + i - now) ∧
      now + (u + i - now) = u + i) ∧
    (∀ (i : Option Nat) (now : Nat), sync_refetch_timeout none i now = none) ∧
    (∀ (u now : Nat), sync_refetch_timeout (some u) none now = none) ∧
    (sync_refetch_timeout (some 2100) (some 2000) 2100 = some 2000 ∧
      2100 + 2000 = 4100 ∧ (4100 : Nat) ≠ 4000) := by
  refine ⟨?_, ?_, ?_, by decide⟩
  · intro u i now h
    constructor
    · simp only [sync_refetch_timeout, time_until_stale]
    · omega
  · intro i now
    cases i <;> rfl
  · intro u now
    rfl

/-- Witness for C6 at concrete inputs: with last update at 2100 ms and a
2000 ms interval read at time 2100, one timer of duration 2000 ms is armed
and fires at absolute time 4100 ms. -/
theorem claim_C6_refetch_interval_witness :
    (2100 : Nat) ≤ 2100 + 2000 ∧
    sync_refetch_timeout (some 2100) (some 2000) 2100 = some (2100 + 2000 - 2100) ∧
    2100 + (2100 + 2000 - 2100) = 2100 + 2000 := by
  refine ⟨by decide, ?_, ?_⟩
  · exact (claim_C6_refetch_interval.1 2100 2000 2100 (by decide)).1
  · exact (claim_C6_refetch_interval.1 2100 2000 2100 (by decide)).2

/-- Association-list lookup, standing for `HashMap` lookup keyed by `K`. -/
def aLookup {K A : Type} [DecidableEq K] : List (K × A) → K → Option A
  | [], _ => none
  | p :: rest, j => if j = p.1 then some p.2 else aLookup rest j

/-- `maybe_time_until_stale` (`src/query_executor.rs` lines 278-286): the
remaining duration, defined only when both the timestamp and the window are
present. -/
def maybe_time_until_stale (updated_at : Option Nat) (stale_time : Option Nat)
    (now : Nat) : Option Nat :=
  match updated_at, stale_time with
  | some lu, some st => some (time_until_stale lu st now)
  | _, _ => none

/-- An armed timer of the eviction scheduler: a unique identifier, the key
it was armed for, and its absolute fire deadline. -/
structure ArmedTimer (K : Type) where
  id : Nat
  key : K
  deadline : Nat
deriving Repr, DecidableEq

/-- The state of one `ensure_cache_cleanup` instance
(`src/query_executor.rs` lines 180-276): the timers currently armed on the
root scope (with a fresh-identifier counter), the per-key map from key to
the clear handle of its last armed timer (`timeout_map`; `none` records a
handle whose run armed nothing), and the keys whose eviction routine was
deferred to scope teardown (`cleanup_map`). -/
structure CleanupState (K : Type) where
  armed : List (ArmedTimer K)
  nextId : Nat
  timeout_map : List (K × Option Nat)
  cleanup_map : List K
deriving Repr, DecidableEq

/-- The clearing prelude of one `ensure_cache_cleanup` effect run
(`src/query_executor.rs` lines 213-224): the key is dropped from the cleanup
map by the caller; here the previous clear handle for the key is taken out
of the timeout map and invoked, cancelling the timer it had armed (if any).
Returns the armed-timer list and timeout map after clearing. -/
def cleanup_cleared {K : Type} [DecidableEq K] (st : CleanupState K) (k : K) :
    List (ArmedTimer K) × List (K × Option Nat) :=
  match aLookup st.timeout_map k with
  | some (some i) =>
    (st.armed.filter (fun t => t.id ≠ i), st.timeout_map.filter (fun p => p.1 ≠ k))
  | some none => (st.armed, st.timeout_map.filter (fun p => p.1 ≠ k))
  | none => (st.armed, st.timeout_map)

/-- One full `ensure_cache_cleanup` effect run (`src/query_executor.rs`
lines 207-275): remove the key from the cleanup map, clear the previous
timeout for the key, then (via `use_timeout` on the root scope) arm a new
eviction timer when `maybe_time_until_stale updated_at cache_time` is
defined, and store this run's clear handle in the timeout map. -/
def ensure_cache_cleanup_run {K : Type} [DecidableEq K] (st : CleanupState K) (k : K)
    (updated_at : Option Nat) (cache_time : Option Nat) (now : Nat) : CleanupState K :=
  let cmap := st.cleanup_map.filter (fun j => j ≠ k)
  let cleared := cleanup_cleared st k
  match maybe_time_until_stale updated_at cache_time now with
  | some dur =>
    ⟨⟨st.nextId, k, now + dur⟩ :: cleared.1, st.nextId + 1, (k, some st.nextId) :: cleared.2, cmap⟩
  | none => ⟨cleared.1, st.nextId, (k, none) :: cleared.2, cmap⟩

/-- An optional timer identifier is below the fresh-identifier counter. -/
def optLt : Option Nat → Nat → Prop
  | some i, n => i < n
  | none, _ => True

instance (o : Option Nat) (n : Nat) : Decidable (optLt o n) :=
  match o with
  | some i => inferInstanceAs (Decidable (i < n))
  | none => inferInstanceAs (Decidable True)

/-- Invariant of one eviction-scheduler instance: armed identifiers are
distinct and below the fresh counter, at most one timer is armed per key,
every armed timer is recorded as its key's current clear handle, and every
recorded handle identifier is below the fresh counter. -/
abbrev CleanupInv {K : Type} [DecidableEq K] (st : CleanupState K) : Prop :=
  (st.armed.map (fun t => t.id)).Nodup ∧
  (∀ t ∈ st.armed, t.id < st.nextId) ∧
  (st.armed.map (fun t => t.key)).Nodup ∧
  (∀ t ∈ st.armed, aLookup st.timeout_map t.key = some (some t.id)) ∧
  (∀ p ∈ st.timeout_map, optLt p.2 st.nextId)

lemma aLookup_filter_ne {K A : Type} [DecidableEq K] (l : List (K × A)) (k j : K)
    (h : j ≠ k) : aLookup (l.filter (fun p => p.1 ≠ k)) j = aLookup l j := by
  induction l with
  | nil => rfl
  | cons p rest ih =>
    simp only [decide_not] at ih
    rcases eq_or_ne p.1 k with hp | hp
    · simp [List.filter_cons, hp, aLookup, h, ih]
    · rcases eq_or_ne j p.1 with hj | hj
      · simp [List.filter_cons, hp, aLookup, hj]
      · simp [List.filter_cons, hp, aLookup, hj, ih]

lemma cleanup_cleared_sublist {K : Type} [DecidableEq K] (st : CleanupState K) (k : K) :
    (cleanup_cleared st k).1.Sublist st.armed := by
  unfold cleanup_cleared
  rcases aLookup st.timeout_map k with _ | (_ | i)
  · exact List.Sublist.refl _
  · exact List.Sublist.refl _
  · exact List.filter_sublist _

lemma cleanup_cleared_no_key {K : Type} [DecidableEq K] (st : CleanupState K) (k : K)
    (h : CleanupInv st) : ∀ t ∈ (cleanup_cleared st k).1, t.key ≠ k := by
  obtain ⟨-, -, -, h4, -⟩ := h
  intro t ht hk
  unfold cleanup_cleared at ht
  rcases hm : aLookup st.timeout_map k with _ | (_ | i) <;> rw [hm] at ht
  · exact Option.noConfusion ((h4 t ht).symm.trans (hk ▸ hm))
  · exact Option.noConfusion (Option.some.inj ((h4 t ht).symm.trans (hk ▸ hm)))
  · have ht' := List.mem_filter.mp ht
    have hid : t.id = i := by
      have := (h4 t ht'.1).symm.trans (hk ▸ hm)
      exact Option.some.inj (Option.some.inj this)
    have : (t.id ≠ i) = true := by
      have := ht'.2
      simpa using this
    simp [hid] at this

lemma cleanup_cleared_lookup {K : Type} [DecidableEq K] (st : CleanupState K) (k j : K)
    (h : j ≠ k) : aLookup (cleanup_cleared st k).2 j = aLookup st.timeout_map j := by
  unfold cleanup_cleared
  rcases aLookup st.timeout_map k with _ | (_ | i)
  · rfl
  · exact aLookup_filter_ne _ _ _ h
  · exact aLookup_filter_ne _ _ _ h

lemma cleanup_cleared_map_sublist {K : Type} [DecidableEq K] (st : CleanupState K) (k : K) :
    (cleanup_cleared st k).2.Sublist st.timeout_map := by
  unfold cleanup_cleared
  rcases aLookup st.timeout_map k with _ | (_ | i)
  · exact List.Sublist.refl _
  · exact List.filter_sublist _
  · exact List.filter_sublist _

lemma optLt_mono {o : Option Nat} {n m : Nat} (h : optLt o n) (hnm : n ≤ m) : optLt o m := by
  cases o with
  | none => trivial
  | some i => exact lt_of_lt_of_le h hnm

/-- Every `ensure_cache_cleanup` effect run preserves the instance
invariant: old timers for the key are cancelled before the new one is armed,
identifiers stay fresh, and the timeout map stays in sync with the armed
timers. -/
lemma cleanup_run_inv {K : Type} [DecidableEq K] (st : CleanupState K) (k : K)
    (u ct : Option Nat) (now : Nat) (h : CleanupInv st) :
    CleanupInv (ensure_cache_cleanup_run st k u ct now) := by
  obtain ⟨h1, h2, h3, h4, h5⟩ := h
  have hsub := cleanup_cleared_sublist st k
  have hmem : ∀ t ∈ (cleanup_cleared st k).1, t ∈ st.armed := fun t ht => hsub.subset ht
  have hnokey := cleanup_cleared_no_key st k ⟨h1, h2, h3, h4, h5⟩
  have hidnodup : ((cleanup_cleared st k).1.map (fun t => t.id)).Nodup :=
    h1.sublist (hsub.map _)
  have hkeynodup : ((cleanup_cleared st k).1.map (fun t => t.key)).Nodup :=
    h3.sublist (hsub.map _)
  have hlook : ∀ t ∈ (cleanup_cleared st k).1,
      aLookup (cleanup_cleared st k).2 t.key = some (some t.id) := by
    intro t ht
    rw [cleanup_cleared_lookup st k t.key (hnokey t ht)]
    exact h4 t (hmem t ht)
  have hmaplt : ∀ p ∈ (cleanup_cleared st k).2, optLt p.2 st.nextId :=
    fun p hp => h5 p ((cleanup_cleared_map_sublist st k).subset hp)
  have hfresh : ∀ t ∈ (cleanup_cleared st k).1, t.id ≠ st.nextId :=
    fun t ht hid => absurd (h2 t (hmem t ht)) (by simp [hid])
  unfold ensure_cache_cleanup_run
  rcases maybe_time_until_stale u ct now with _ | dur
  · refine ⟨hidnodup, fun t ht => lt_of_lt_of_le (h2 t (hmem t ht)) (le_refl _), hkeynodup,
      ?_, ?_⟩
    · intro t ht
      have hkt := hnokey t ht
      simpa [aLookup, hkt] using hlook t ht
    · intro p hp
      rcases List.mem_cons.mp hp with hp | hp
      · subst hp; trivial
      · exact hmaplt p hp
  · refine ⟨?_, ?_, ?_, ?_, ?_⟩
    · refine List.nodup_cons.mpr ⟨?_, hidnodup⟩
      intro hmemid
      rcases List.mem_map.mp hmemid with ⟨t, ht, hid⟩
      exact hfresh t ht hid
    · intro t ht
      rcases List.mem_cons.mp ht with ht | ht
      · subst ht; exact Nat.lt_succ_self _
      · exact lt_trans (h2 t (hmem t ht)) (Nat.lt_succ_self _)
    · refine List.nodup_cons.mpr ⟨?_, hkeynodup⟩
      intro hmemkey
      rcases List.mem_map.mp hmemkey with ⟨t, ht, hkey⟩
      exact hnokey t ht hkey
    · intro t ht
      rcases List.mem_cons.mp ht with ht | ht
      · subst ht; simp [aLookup]
      · have hkt := hnokey t ht
        simpa [aLookup, hkt] using hlook t ht
    · intro p hp
      rcases List.mem_cons.mp hp with hp | hp
      · subst hp; exact Nat.lt_succ_self _
      · exact optLt_mono (hmaplt p hp) (Nat.le_succ _)

/-- The state of the `use_timeout` instance created by `sync_refetch`
(`src/query_executor.rs` lines 122-148): the armed interval timers as
(identifier, absolute fire deadline) pairs, a fresh-identifier counter, and
the handle of the currently armed timer, if any. -/
structure RefetchState where
  armed : List (Nat × Nat)
  nextId : Nat
  current : Option Nat
deriving Repr, DecidableEq

/-- One run of the effect inside `use_timeout` for `sync_refetch`: the
previously armed timeout is always cleared first, then a new timer is armed
exactly when `sync_refetch_timeout` produces a duration. -/
def sync_refetch_run (st : RefetchState) (updated_at : Option Nat)
    (refetch_interval : Option Nat) (now : Nat) : RefetchState :=
  let armed1 := match st.current with
    | some i => st.armed.filter (fun t => t.1 ≠ i)
    | none => st.armed
  match sync_refetch_timeout updated_at refetch_interval now with
  | some dur => ⟨(st.nextId, now + dur) :: armed1, st.nextId + 1, some st.nextId⟩
  | none => ⟨armed1, st.nextId, none⟩

/-- The identifiers a `use_timeout` handle keeps alive: one or none. -/
def currentIds : Option Nat → List Nat
  | some i => [i]
  | none => []

/-- Invariant of one `sync_refetch` instance: armed identifiers are below
the fresh counter, and the armed timers are exactly the one held by the
current handle — in particular at most one interval timer is live. -/
abbrev RefetchInv (st : RefetchState) : Prop :=
  (∀ t ∈ st.armed, t.1 < st.nextId) ∧
  st.armed.map (fun t => t.1) = currentIds st.current

lemma refetch_armed_shape (st : RefetchState) (h : RefetchInv st) :
    (st.current = none ∧ st.armed = []) ∨
    (∃ i d, st.current = some i ∧ st.armed = [(i, d)]) := by
  obtain ⟨-, h2⟩ := h
  rcases hc : st.current with _ | i <;> rw [hc] at h2
  · exact Or.inl ⟨rfl, List.map_eq_nil_iff.mp h2⟩
  · rcases harm : st.armed with _ | ⟨t, rest⟩ <;> rw [harm] at h2
    · exact absurd h2 (by simp [currentIds])
    · simp only [List.map_cons, currentIds] at h2
      have ht1 : t.1 = i := (List.cons.injEq _ _ _ _ ▸ h2).1
      have hrest : rest = [] := List.map_eq_nil_iff.mp (List.cons.injEq _ _ _ _ ▸ h2).2
      have ht : t = (i, t.2) := by
        cases t
        simp only at ht1
        rw [ht1]
      exact Or.inr ⟨i, t.2, rfl, by rw [hrest, ← ht]⟩

/-- Every `sync_refetch` effect run preserves the instance invariant. -/
lemma sync_refetch_run_inv (st : RefetchState) (u i : Option Nat) (now : Nat)
    (h : RefetchInv st) : RefetchInv (sync_refetch_run st u i now) := by
  have hshape := refetch_armed_shape st h
  obtain ⟨h1, h2⟩ := h
  unfold sync_refetch_run
  have harm1 : (match st.current with
      | some j => st.armed.filter (fun t => t.1 ≠ j)
      | none => st.armed) = [] := by
    rcases hshape with ⟨hc, harm⟩ | ⟨j, d, hc, harm⟩
    · rw [hc, harm]
    · rw [hc, harm]
      simp [List.filter]
  rw [harm1]
  rcases sync_refetch_timeout u i now with _ | dur
  · exact ⟨fun t ht => absurd ht (List.not_mem_nil t), by simp [currentIds]⟩
  · constructor
    · intro t ht
      rcases List.mem_cons.mp ht with ht | ht
      · subst ht; exact Nat.lt_succ_self _
      · cases ht
    · simp [currentIds]

lemma aLookup_mem {K A : Type} [DecidableEq K] {l : List (K × A)} {k : K} {a : A}
    (h : aLookup l k = some a) : (k, a) ∈ l := by
  induction l with
  | nil => cases h
  | cons p rest ih =>
    rcases p with ⟨pk, pa⟩
    by_cases hk : k = pk
    · simp only [aLookup, hk, if_pos] at h
      rw [hk, Option.some.inj h]
      exact List.mem_cons_self _ _
    · simp only [aLookup, hk, if_neg, not_false_iff] at h
      exact List.mem_cons_of_mem _ (ih h)

/-- A sequence of `ensure_cache_cleanup` effect runs, each given as
(key, updated_at, cache_time, now). -/
def cleanup_runs {K : Type} [DecidableEq K] (st : CleanupState K) :
    List (K × Option Nat × Option Nat × Nat) → CleanupState K
  | [] => st
  | r :: rest => cleanup_runs (ensure_cache_cleanup_run st r.1 r.2.1 r.2.2.1 r.2.2.2) rest

/-- A sequence of `sync_refetch` effect runs, each given as
(updated_at, refetch_interval, now). -/
def sync_refetch_runs (st : RefetchState) :
    List (Option Nat × Option Nat × Nat) → RefetchState
  | [] => st
  | r :: rest => sync_refetch_runs (sync_refetch_run st r.1 r.2.1 r.2.2) rest

lemma cleanup_runs_inv {K : Type} [DecidableEq K]
    (runs : List (K × Option Nat × Option Nat × Nat)) :
    ∀ st : CleanupState K, CleanupInv st → CleanupInv (cleanup_runs st runs) := by
  induction runs with
  | nil => exact fun st h => h
  | cons r rest ih =>
    exact fun st h => ih _ (cleanup_run_inv st r.1 r.2.1 r.2.2.1 r.2.2.2 h)

lemma sync_refetch_runs_inv (runs : List (Option Nat × Option Nat × Nat)) :
    ∀ st : RefetchState, RefetchInv st → RefetchInv (sync_refetch_runs st runs) := by
  induction runs with
  | nil => exact fun st h => h
  | cons r rest ih =>
    exact fun st h => ih _ (sync_refetch_run_inv st r.1 r.2.1 r.2.2 h)

lemma refetch_inv_length (st : RefetchState) (h : RefetchInv st) :
    st.armed.length ≤ 1 := by
  have h2 := h.2
  have : st.armed.length = (currentIds st.current).length := by
    rw [← h2, List.length_map]
  rw [this]
  cases st.current <;> simp [currentIds]

/-- C8: timers never leak and deadlines track the latest update. For one
synchronization instance: (i) the eviction-scheduler invariant — distinct
live timers, at most one per key, each recorded as its key's clear handle —
holds after any sequence of effect runs from the fresh instance; (ii) a run
for key `k` cancels the timer previously recorded for `k` before leaving the
run; (iii) a run seeing a new `updated_at` arms the eviction timer with
deadline `updated_at + cache_time`, and every live timer for that key
carries that recomputed deadline; (iv) a `sync_refetch` run cancels the
previously armed interval timer; (v) it leaves at most one interval timer
live; (vi) the interval-scheduler invariant holds after any run sequence. -/
theorem claim_C8_timer_discipline {K : Type} [DecidableEq K] :
    (∀ runs : List (K × Option Nat × Option Nat × Nat),
      CleanupInv (cleanup_runs (⟨[], 0, [], []⟩ : CleanupState K) runs)) ∧
    (∀ (st : CleanupState K) (k : K) (u ct : Option Nat) (now i : Nat),
      CleanupInv st → aLookup st.timeout_map k = some (some i) →
      ∀ t ∈ (ensure_cache_cleanup_run st k u ct now).armed, t.id ≠ i) ∧
    (∀ (st : CleanupState K) (k : K) (u ct now : Nat),
      CleanupInv st → now ≤ u + ct →
      (⟨st.nextId, k, u + ct⟩ : ArmedTimer K) ∈
        (ensure_cache_cleanup_run st k (some u) (some ct) now).armed ∧
      (∀ t ∈ (ensure_cache_cleanup_run st k (some u) (some ct) now).armed,
        t.key = k → t.deadline = u + ct)) ∧
    (∀ (st : RefetchState) (u iv : Option Nat) (now i : Nat),
      RefetchInv st → st.current = some i →
      ∀ t ∈ (sync_refetch_run st u iv now).armed, t.1 ≠ i) ∧
    (∀ (st : RefetchState) (u iv : Option Nat) (now : Nat),
      RefetchInv st → (sync_refetch_run st u iv now).armed.length ≤ 1) ∧
    (∀ runs : List (Option Nat × Option Nat × Nat),
      RefetchInv (sync_refetch_runs (⟨[], 0, none⟩ : RefetchState) runs)) := by
  have hinit : CleanupInv (⟨[], 0, [], []⟩ : CleanupState K) := by
    refine ⟨List.nodup_nil, ?_, List.nodup_nil, ?_, ?_⟩ <;>
      exact fun t ht => absurd ht (List.not_mem_nil t)
  refine ⟨fun runs => cleanup_runs_inv runs _ hinit, ?_, ?_, ?_, ?_, ?_⟩
  · -- (ii) a run cancels the previously recorded timer for its key
    intro st k u ct now i h hmap t ht
    obtain ⟨h1, h2, h3, h4, h5⟩ := h
    have hlti : i < st.nextId := h5 (k, some i) (aLookup_mem hmap)
    have htail : ∀ t2 ∈ (cleanup_cleared st k).1, t2.id ≠ i := by
      intro t2 ht2
      unfold cleanup_cleared at ht2
      rw [hmap] at ht2
      have := (List.mem_filter.mp ht2).2
      simpa using this
    unfold ensure_cache_cleanup_run at ht
    rcases hm2 : maybe_time_until_stale u ct now with _ | dur <;> rw [hm2] at ht
    · exact htail t ht
    · rcases List.mem_cons.mp ht with ht | ht
      · subst ht
        exact fun hcontra => absurd hlti (by simp [← hcontra])
      · exact htail t ht
  · -- (iii) the new timer's deadline is recomputed from the new updated_at
    intro st k u ct now h hle
    have hnokey := cleanup_cleared_no_key st k h
    have hdl : now + time_until_stale u ct now = u + ct := by
      simp only [time_until_stale]
      omega
    constructor
    · show _ ∈ (ensure_cache_cleanup_run st k (some u) (some ct) now).armed
      unfold ensure_cache_cleanup_run maybe_time_until_stale
      rw [← hdl]
      exact List.mem_cons_self _ _
    · intro t ht hkey
      unfold ensure_cache_cleanup_run maybe_time_until_stale at ht
      rcases List.mem_cons.mp ht with ht | ht
      · rw [ht]
        exact hdl
      · exact absurd hkey (hnokey t ht)
  · -- (iv) a sync_refetch run cancels the previous interval timer
    intro st u iv now i h hc t ht
    rcases refetch_armed_shape st h with ⟨hc2, -⟩ | ⟨j, d, hc2, harm⟩
    · exact absurd (hc2.symm.trans hc) (by simp)
    · have hji : j = i := Option.some.inj (hc2.symm.trans hc)
      have hlti : i < st.nextId := by
        have := h.1 (j, d) (by rw [harm]; exact List.mem_cons_self _ _)
        simpa [hji] using this
      have harm1 : (match st.current with
          | some j2 => st.armed.filter (fun t2 => t2.1 ≠ j2)
          | none => st.armed) = [] := by
        rw [hc, harm]
        simp [List.filter, hji]
      unfold sync_refetch_run at ht
      rw [harm1] at ht
      rcases hm2 : sync_refetch_timeout u iv now with _ | dur <;> rw [hm2] at ht
      · exact absurd ht (List.not_mem_nil t)
      · rcases List.mem_cons.mp ht with ht | ht
        · rw [ht]
          exact fun hcontra => absurd hlti (by simp [← hcontra])
        · exact absurd ht (List.not_mem_nil t)
  · -- (v) at most one interval timer is live after a run
    intro st u iv now h
    exact refetch_inv_length _ (sync_refetch_run_inv st u iv now h)
  · -- (vi) the interval-scheduler invariant holds along any run sequence
    intro runs
    refine sync_refetch_runs_inv runs _ ⟨?_, by simp [currentIds]⟩
    exact fun t ht => absurd ht (List.not_mem_nil t)

/-- Witness for C8 at concrete inputs: an instance holding one timer
(id 0) for key 1 recorded in its timeout map satisfies the invariant, and a
new run for key 1 cancels timer 0; the new eviction timer for key 1 armed at
time 30 with updated_at 20 and cache_time 40 carries deadline 60. -/
theorem claim_C8_timer_discipline_witness :
    CleanupInv (⟨[⟨0, 1, 50⟩], 1, [(1, some 0)], []⟩ : CleanupState Nat) ∧
    aLookup (⟨[⟨0, 1, 50⟩], 1, [(1, some 0)], []⟩ : CleanupState Nat).timeout_map 1 =
      some (some 0) ∧
    (30 : Nat) ≤ 20 + 40 ∧
    (∀ t ∈ (ensure_cache_cleanup_run
        (⟨[⟨0, 1, 50⟩], 1, [(1, some 0)], []⟩ : CleanupState Nat)
        1 (some 20) (some 40) 30).armed, t.id ≠ 0) ∧
    (⟨1, 1, 60⟩ : ArmedTimer Nat) ∈ (ensure_cache_cleanup_run
        (⟨[⟨0, 1, 50⟩], 1, [(1, some 0)], []⟩ : CleanupState Nat)
        1 (some 20) (some 40) 30).armed := by
  refine ⟨by decide, by decide, by decide, ?_, ?_⟩
  · exact claim_C8_timer_discipline.2.1
      (⟨[⟨0, 1, 50⟩], 1, [(1, some 0)], []⟩ : CleanupState Nat)
      1 (some 20) (some 40) 30 0 (by decide) (by decide)
  · exact (claim_C8_timer_discipline.2.2.1
      (⟨[⟨0, 1, 50⟩], 1, [(1, some 0)], []⟩ : CleanupState Nat)
      1 20 40 30 (by decide) (by decide)).1

/-- C10: when `cache_time` is absent or the query has never been updated,
`maybe_time_until_stale` is `none` and an `ensure_cache_cleanup` run arms no
eviction timer for the key (any previous one is still cleared), so such a
query is never evicted by the time-based eviction path. -/
theorem claim_C10_no_cache_time_no_eviction {K : Type} [DecidableEq K] :
    (∀ (ct : Option Nat) (now : Nat), maybe_time_until_stale none ct now = none) ∧
    (∀ (u : Option Nat) (now : Nat), maybe_time_until_stale u none now = none) ∧
    (∀ (st : CleanupState K) (k : K) (ct : Option Nat) (now : Nat), CleanupInv st →
      ∀ t ∈ (ensure_cache_cleanup_run st k none ct now).armed, t.key ≠ k) ∧
    (∀ (st : CleanupState K) (k : K) (u : Option Nat) (now : Nat), CleanupInv st →
      ∀ t ∈ (ensure_cache_cleanup_run st k u none now).armed, t.key ≠ k) := by
  have hnone1 : ∀ (ct : Option Nat) (now : Nat), maybe_time_until_stale none ct now = none := by
    intro ct now
    cases ct <;> rfl
  have hnone2 : ∀ (u : Option Nat) (now : Nat), maybe_time_until_stale u none now = none := by
    intro u now
    cases u <;> rfl
  refine ⟨hnone1, hnone2, ?_, ?_⟩
  · intro st k ct now h t ht
    have hnokey := cleanup_cleared_no_key st k h
    unfold ensure_cache_cleanup_run at ht
    rw [hnone1 ct now] at ht
    exact hnokey t ht
  · intro st k u now h t ht
    have hnokey := cleanup_cleared_no_key st k h
    unfold ensure_cache_cleanup_run at ht
    rw [hnone2 u now] at ht
    exact hnokey t ht

/-- Witness for C10 at concrete inputs: a run for key 1 with no
`updated_at` clears the previous timer and leaves no armed timer for
key 1. -/
theorem claim_C10_no_cache_time_no_eviction_witness :
    CleanupInv (⟨[⟨0, 1, 50⟩], 1, [(1, some 0)], []⟩ : CleanupState Nat) ∧
    (∀ t ∈ (ensure_cache_cleanup_run
        (⟨[⟨0, 1, 50⟩], 1, [(1, some 0)], []⟩ : CleanupState Nat)
        1 none (some 40) 30).armed, t.key ≠ 1) :=
  ⟨by decide, claim_C10_no_cache_time_no_eviction.2.2.1
    (⟨[⟨0, 1, 50⟩], 1, [(1, some 0)], []⟩ : CleanupState Nat)
    1 (some 40) 30 (by decide)⟩

/-- A query as held by the global cache: its shared observer count and its
state. -/
structure CachedQuery (V : Type) where
  observers : Nat
  state : QueryState V
deriving Repr, DecidableEq

/-- The outcome of one eviction-timer fire: the cache and the cleanup map
afterwards, whether the key was removed from the cache during the fire, and
whether the removed query's resources were disposed. -/
structure EvictionResult (K V : Type) where
  cache : List (K × CachedQuery V)
  cleanup_map : List K
  removed : Bool
  disposed : Bool
deriving Repr, DecidableEq

/-- The eviction-timer fire routine of `ensure_cache_cleanup`
(`src/query_executor.rs` lines 238-266).  The `dispose` closure removes the
key from the global cache unconditionally and disposes the removed query
only when its observer count is zero.  At fire time, if the owning consumer
scope has already been disposed (`child_disposed`), `dispose` runs
immediately; otherwise it is stored in the per-key cleanup map to run at
scope teardown. -/
def eviction_fire {K V : Type} [DecidableEq K] (cache : List (K × CachedQuery V))
    (cleanup_map : List K) (child_disposed : Bool) (k : K) : EvictionResult K V :=
  if child_disposed then
    match aLookup cache k with
    | some q => ⟨cache.filter (fun p => p.1 ≠ k), cleanup_map, true, q.observers == 0⟩
    | none => ⟨cache, cleanup_map, false, false⟩
  else
    ⟨cache, k :: cleanup_map, false, false⟩

/-- C2 counterexample: the eviction timer's fire routine removes the key
from the global cache even when the query's observer count is positive.
Concretely, a timer armed by an already-disposed consumer scope fires on a
cache holding key 1 with one observer (attached by a later consumer): the
key is removed from the cache although its observer count is 1 > 0 (only
disposal is withheld). -/
theorem claim_C2_counterexample :
    (0 : Nat) < (⟨1, .Loaded ⟨7, 0⟩⟩ : CachedQuery Nat).observers ∧
    aLookup [((1 : Nat), (⟨1, .Loaded ⟨7, 0⟩⟩ : CachedQuery Nat))] 1 =
      some ⟨1, .Loaded ⟨7, 0⟩⟩ ∧
    (eviction_fire [((1 : Nat), (⟨1, .Loaded ⟨7, 0⟩⟩ : CachedQuery Nat))] [] true 1).removed
      = true ∧
    (eviction_fire [((1 : Nat), (⟨1, .Loaded ⟨7, 0⟩⟩ : CachedQuery Nat))] [] true 1).cache
      = [] := by
  decide

/-- C2 as amended: an observed query is never *disposed* by the eviction
timer, and a fire whose owning consumer scope is still alive removes nothing
from the cache (the eviction routine is deferred to scope teardown); but a
fire whose owning scope was already disposed removes the key from the cache
regardless of the observer count. -/
theorem claim_C2_eviction_observers {K V : Type} [DecidableEq K] :
    (∀ (cache : List (K × CachedQuery V)) (cmap : List K) (child : Bool) (k : K)
      (q : CachedQuery V), aLookup cache k = some q → 0 < q.observers →
      (eviction_fire cache cmap child k).disposed = false) ∧
    (∀ (cache : List (K × CachedQuery V)) (cmap : List K) (k : K),
      (eviction_fire cache cmap false k).cache = cache ∧
      (eviction_fire cache cmap false k).removed = false) ∧
    (∀ (cache : List (K × CachedQuery V)) (cmap : List K) (k : K) (q : CachedQuery V),
      aLookup cache k = some q →
      (eviction_fire cache cmap true k).removed = true) := by
  refine ⟨?_, ?_, ?_⟩
  · intro cache cmap child k q hq hobs
    cases child with
    | false => rfl
    | true =>
      have hobs2 : (q.observers == 0) = false := by
        simpa using Nat.pos_iff_ne_zero.mp hobs
      simp [eviction_fire, hq, hobs2]
  · intro cache cmap k
    exact ⟨rfl, rfl⟩
  · intro cache cmap k q hq
    simp [eviction_fire, hq]

/-- Witness for C2's amended statement at concrete inputs: key 1 has one
observer; a fire from a disposed scope removes it but does not dispose it,
and a fire from a live scope leaves the cache unchanged. -/
theorem claim_C2_eviction_observers_witness :
    aLookup [((1 : Nat), (⟨1, .Loaded ⟨7, 0⟩⟩ : CachedQuery Nat))] 1 =
      some ⟨1, .Loaded ⟨7, 0⟩⟩ ∧
    (0 : Nat) < (⟨1, .Loaded ⟨7, 0⟩⟩ : CachedQuery Nat).observers ∧
    (eviction_fire [((1 : Nat), (⟨1, .Loaded ⟨7, 0⟩⟩ : CachedQuery Nat))] [] true 1).disposed
      = false ∧
    (eviction_fire [((1 : Nat), (⟨1, .Loaded ⟨7, 0⟩⟩ : CachedQuery Nat))] [] false 1).cache
      = [((1 : Nat), (⟨1, .Loaded ⟨7, 0⟩⟩ : CachedQuery Nat))] := by
  refine ⟨by decide, by decide, ?_, ?_⟩
  · exact claim_C2_eviction_observers.1 _ [] true 1 ⟨1, .Loaded ⟨7, 0⟩⟩
      (by decide) (by decide)
  · exact (claim_C2_eviction_observers.2.1 _ [] 1).1

/-- C9: at fire time the eviction routine distinguishes the two cases — a
disposed owning scope runs the removal immediately (disposing exactly when
the observer count is zero) and leaves the cleanup map untouched, while a
live owning scope leaves the cache untouched and stores the routine in the
cleanup map under the key; a later `ensure_cache_cleanup` effect run for the
same key removes the key from the cleanup map, cancelling the deferred
routine. -/
theorem claim_C9_eviction_fire_cases {K V : Type} [DecidableEq K] :
    (∀ (cache : List (K × CachedQuery V)) (cmap : List K) (k : K) (q : CachedQuery V),
      aLookup cache k = some q →
      eviction_fire cache cmap true k =
        ⟨cache.filter (fun p => p.1 ≠ k), cmap, true, q.observers == 0⟩) ∧
    (∀ (cache : List (K × CachedQuery V)) (cmap : List K) (k : K),
      eviction_fire cache cmap false k = ⟨cache, k :: cmap, false, false⟩) ∧
    (∀ (st : CleanupState K) (k : K) (u ct : Option Nat) (now : Nat),
      k ∉ (ensure_cache_cleanup_run st k u ct now).cleanup_map) := by
  refine ⟨?_, ?_, ?_⟩
  · intro cache cmap k q hq
    simp [eviction_fire, hq]
  · intro cache cmap k
    rfl
  · intro st k u ct now hmem
    have hcmap : (ensure_cache_cleanup_run st k u ct now).cleanup_map =
        st.cleanup_map.filter (fun j => j ≠ k) := by
      unfold ensure_cache_cleanup_run
      rcases maybe_time_until_stale u ct now with _ | dur <;> rfl
    rw [hcmap] at hmem
    have := (List.mem_filter.mp hmem).2
    simp at this

/-- Witness for C9 at concrete inputs: a fire with the owning scope
disposed removes key 1 and disposes it (observer count 0); with the scope
alive the routine is deferred under key 1; and a later run for key 1 drops
it from the cleanup map. -/
theorem claim_C9_eviction_fire_cases_witness :
    aLookup [((1 : Nat), (⟨0, .Loaded ⟨7, 0⟩⟩ : CachedQuery Nat))] 1 =
      some ⟨0, .Loaded ⟨7, 0⟩⟩ ∧
    eviction_fire [((1 : Nat), (⟨0, .Loaded ⟨7, 0⟩⟩ : CachedQuery Nat))] [] true 1 =
      ⟨[], [], true, true⟩ ∧
    eviction_fire [((1 : Nat), (⟨0, .Loaded ⟨7, 0⟩⟩ : CachedQuery Nat))] [] false 1 =
      ⟨[((1 : Nat), (⟨0, .Loaded ⟨7, 0⟩⟩ : CachedQuery Nat))], [1], false, false⟩ ∧
    (1 : Nat) ∉ (ensure_cache_cleanup_run (⟨[], 0, [], [1]⟩ : CleanupState Nat)
      1 (some 20) (some 40) 30).cleanup_map := by
  refine ⟨by decide, ?_, ?_, ?_⟩
  · have h := claim_C9_eviction_fire_cases.1
      [((1 : Nat), (⟨0, .Loaded ⟨7, 0⟩⟩ : CachedQuery Nat))] [] 1 ⟨0, .Loaded ⟨7, 0⟩⟩
      (by decide)
    rw [h]
    decide
  · exact claim_C9_eviction_fire_cases.2.1 _ [] 1
  · exact (claim_C9_eviction_fire_cases (K := Nat) (V := Nat)).2.2
      (⟨[], 0, [], [1]⟩ : CleanupState Nat) 1 (some 20) (some 40) 30

/-- The global view of observer bookkeeping (`sync_observers`,
`src/query_executor.rs` lines 151-177): `counts` is each query's shared
observer cell, and `lasts` holds, for every consumer (indexed by position),
the content of that consumer's `last_observer` cell — the query whose
counter the consumer has incremented and not yet given back. -/
structure ObsSystem (K : Type) where
  counts : K → Int
  lasts : List (Option K)

/-- The two events of `sync_observers`: consumer `c`'s tracking effect
re-runs while observing key `k`, or consumer `c`'s scope is cleaned up. -/
inductive ObsEvent (K : Type) where
  | run (c : Nat) (k : K)
  | cleanup (c : Nat)
deriving Repr, DecidableEq

/-- Decrement a query's observer cell (`observers.set(observers.get() - 1)`). -/
def obs_dec {K : Type} [DecidableEq K] (counts : K → Int) (j : K) : K → Int :=
  fun x => if x = j then counts x - 1 else counts x

/-- Increment a query's observer cell (`observers.set(observers.get() + 1)`). -/
def obs_inc {K : Type} [DecidableEq K] (counts : K → Int) (j : K) : K → Int :=
  fun x => if x = j then counts x + 1 else counts x

/-- One step of `sync_observers`.  An effect re-run of consumer `c` for key
`k` first decrements the previously incremented cell (taking it out of
`last_observer`), then increments `k`'s cell and records it; scope cleanup
takes `last_observer` and decrements it once — if it is already empty
nothing happens, so a detach can never run twice for one attach.  An event
naming a consumer that does not exist is a no-op. -/
def obs_step {K : Type} [DecidableEq K] (s : ObsSystem K) : ObsEvent K → ObsSystem K
  | .run c k =>
    if c < s.lasts.length then
      match s.lasts.getD c none with
      | some j => ⟨obs_inc (obs_dec s.counts j) k, (s.lasts.set c none).set c (some k)⟩
      | none => ⟨obs_inc s.counts k, s.lasts.set c (some k)⟩
    else s
  | .cleanup c =>
    match s.lasts.getD c none with
    | some j => ⟨obs_dec s.counts j, s.lasts.set c none⟩
    | none => s

/-- How many consumers currently hold key `k` in their `last_observer`. -/
def countEq {K : Type} [DecidableEq K] (l : List (Option K)) (k : K) : Nat :=
  (l.filter (fun x => x = some k)).length

/-- Consistency invariant: each query's observer count equals the number of
consumers currently holding it. -/
def ObsInv {K : Type} [DecidableEq K] (s : ObsSystem K) : Prop :=
  ∀ k : K, s.counts k = (countEq s.lasts k : Int)

/-- Attaches to key `k` performed by one event (an effect re-run for `k` by
an existing consumer increments `k`'s cell once). -/
def obs_att {K : Type} [DecidableEq K] (s : ObsSystem K) (k : K) : ObsEvent K → Nat
  | .run c j => if c < s.lasts.length ∧ j = k then 1 else 0
  | .cleanup _ => 0

/-- Detaches from key `k` performed by one event (a decrement of `k`'s cell:
the consumer's previous observer was `k` and is given back). -/
def obs_det {K : Type} [DecidableEq K] (s : ObsSystem K) (k : K) : ObsEvent K → Nat
  | .run c _ => if c < s.lasts.length ∧ s.lasts.getD c none = some k then 1 else 0
  | .cleanup c => if s.lasts.getD c none = some k then 1 else 0

lemma countEq_cons {K : Type} [DecidableEq K] (a : Option K) (l : List (Option K)) (k : K) :
    countEq (a :: l) k = (if a = some k then 1 else 0) + countEq l k := by
  by_cases h : a = some k <;> simp [countEq, List.filter_cons, h] <;> omega

lemma countEq_set {K : Type} [DecidableEq K] (l : List (Option K)) (c : Nat) (v : Option K)
    (k : K) (h : c < l.length) :
    (countEq (l.set c v) k : Int) =
      (countEq l k : Int) - (if l.getD c none = some k then 1 else 0) +
        (if v = some k then 1 else 0) := by
  induction l generalizing c with
  | nil => simp at h
  | cons a rest ih =>
    cases c with
    | zero =>
      simp only [List.set, countEq_cons, List.getD_cons_zero]
      by_cases hv : v = some k <;> by_cases ha : a = some k <;>
        simp [hv, ha] <;> ring
    | succ c2 =>
      have h2 : c2 < rest.length := by simpa using h
      have ihh := ih c2 h2
      simp only [List.set, countEq_cons, List.getD_cons_succ]
      by_cases hg : rest.getD c2 none = some k <;> by_cases ha : a = some k <;>
        by_cases hv : v = some k <;> simp [hg, ha, hv] at ihh ⊢ <;> omega

lemma obs_step_counts {K : Type} [DecidableEq K] (s : ObsSystem K) (e : ObsEvent K) (k : K) :
    (obs_step s e).counts k = s.counts k + (obs_att s k e : Int) - (obs_det s k e : Int) := by
  cases e with
  | run c j =>
    by_cases hc : c < s.lasts.length
    · simp only [obs_step, obs_att, obs_det]
      rw [if_pos hc]
      rcases hg : s.lasts.getD c none with _ | j2
      · by_cases hjk : j = k
        · simp [obs_inc, hjk, hc]
        · have hkj : ¬(k = j) := fun hh => hjk hh.symm
          simp [obs_inc, hjk, hkj, hc]
      · by_cases hjk : j = k <;> by_cases hj2k : j2 = k
        · simp only [obs_inc, obs_dec, hjk, hj2k, hc, eq_self_iff_true, if_true, and_self,
            Option.some.injEq, Nat.cast_one]
          omega
        · have hkj2 : ¬(k = j2) := fun hh => hj2k hh.symm
          simp [obs_inc, obs_dec, hjk, hj2k, hkj2, hc]
        · have hkj : ¬(k = j) := fun hh => hjk hh.symm
          simp [obs_inc, obs_dec, hjk, hkj, hj2k, hc]
        · have hkj : ¬(k = j) := fun hh => hjk hh.symm
          have hkj2 : ¬(k = j2) := fun hh => hj2k hh.symm
          simp [obs_inc, obs_dec, hjk, hkj, hj2k, hkj2, hc]
    · simp [obs_step, hc, obs_att, obs_det]
  | cleanup c =>
    simp only [obs_step, obs_att, obs_det]
    rcases hg : s.lasts.getD c none with _ | j2
    · simp
    · by_cases hj2k : j2 = k
      · simp [obs_dec, hj2k]
      · have hkj2 : ¬(k = j2) := fun hh => hj2k hh.symm
        simp [obs_dec, hj2k, hkj2]

lemma obs_step_countEq {K : Type} [DecidableEq K] (s : ObsSystem K) (e : ObsEvent K) (k : K) :
    (countEq (obs_step s e).lasts k : Int) =
      (countEq s.lasts k : Int) + (obs_att s k e : Int) - (obs_det s k e : Int) := by
  cases e with
  | run c j =>
    by_cases hc : c < s.lasts.length
    · simp only [obs_step, obs_att, obs_det]
      rw [if_pos hc]
      rcases hg : s.lasts.getD c none with _ | j2
      · rw [countEq_set s.lasts c (some j) k hc, hg]
        by_cases hjk : j = k <;> simp [hjk, hc]
      · rw [List.set_set, countEq_set s.lasts c (some j) k hc, hg]
        by_cases hjk : j = k <;> by_cases hj2k : j2 = k <;> simp [hjk, hj2k, hc]
    · simp [obs_step, hc, obs_att, obs_det]
  | cleanup c =>
    simp only [obs_step, obs_att, obs_det]
    rcases hg : s.lasts.getD c none with _ | j2
    · simp
    · have hc : c < s.lasts.length := by
        by_contra hcon
        rw [List.getD_eq_default _ _ (le_of_not_lt hcon)] at hg
        cases hg
      rw [countEq_set s.lasts c none k hc, hg]
      by_cases hj2k : j2 = k <;> simp [hj2k, hc]

lemma obs_step_inv {K : Type} [DecidableEq K] (s : ObsSystem K) (e : ObsEvent K)
    (h : ObsInv s) : ObsInv (obs_step s e) := by
  intro k
  rw [obs_step_counts s e k, obs_step_countEq s e k, h k]

/-- A trace of `sync_observers` events, accumulating, for a chosen key `k`,
the final system together with the number of attaches to `k` and the number
of detaches from `k` performed along the way. -/
def obs_trace {K : Type} [DecidableEq K] :
    ObsSystem K → K → List (ObsEvent K) → ObsSystem K × Nat × Nat
  | s, _, [] => (s, 0, 0)
  | s, k, e :: rest =>
    ((obs_trace (obs_step s e) k rest).1,
      obs_att s k e + (obs_trace (obs_step s e) k rest).2.1,
      obs_det s k e + (obs_trace (obs_step s e) k rest).2.2)

lemma obs_trace_counts {K : Type} [DecidableEq K] (evts : List (ObsEvent K)) :
    ∀ (s : ObsSystem K) (k : K),
      (obs_trace s k evts).1.counts k =
        s.counts k + ((obs_trace s k evts).2.1 : Int) - ((obs_trace s k evts).2.2 : Int) := by
  induction evts with
  | nil =>
    intro s k
    simp [obs_trace]
  | cons e rest ih =>
    intro s k
    simp only [obs_trace]
    rw [ih (obs_step s e) k, obs_step_counts s e k]
    push_cast
    ring

lemma obs_trace_inv {K : Type} [DecidableEq K] (evts : List (ObsEvent K)) :
    ∀ (s : ObsSystem K) (k : K), ObsInv s → ObsInv (obs_trace s k evts).1 := by
  induction evts with
  | nil => exact fun s k h => h
  | cons e rest ih => exact fun s k h => ih (obs_step s e) k (obs_step_inv s e h)

/-- C7: for any sequence of `sync_observers` events from a consistent
system, each query's shared observer counter equals its initial value plus
the number of attaches minus the number of detaches performed for it, the
consistency invariant is maintained, and the counter is never negative;
moreover cleanup empties the consumer's `last_observer` slot and is a no-op
when the slot is already empty, so each attach is given back exactly once —
either by the effect re-running or by scope cleanup, never both. -/
theorem claim_C7_observer_count {K : Type} [DecidableEq K] :
    (∀ (s : ObsSystem K) (k : K) (evts : List (ObsEvent K)), ObsInv s →
      (obs_trace s k evts).1.counts k =
        s.counts k + ((obs_trace s k evts).2.1 : Int) - ((obs_trace s k evts).2.2 : Int) ∧
      ObsInv (obs_trace s k evts).1 ∧
      0 ≤ (obs_trace s k evts).1.counts k) ∧
    (∀ (s : ObsSystem K) (c : Nat),
      (obs_step s (.cleanup c)).lasts.getD c none = none) ∧
    (∀ (s : ObsSystem K) (c : Nat), s.lasts.getD c none = none →
      obs_step s (.cleanup c) = s) := by
  refine ⟨?_, ?_, ?_⟩
  · intro s k evts h
    have hinv := obs_trace_inv evts s k h
    refine ⟨obs_trace_counts evts s k, hinv, ?_⟩
    rw [hinv k]
    exact Int.natCast_nonneg _
  · intro s c
    rcases hg : s.lasts.getD c none with _ | j2
    · simp only [obs_step]
      rw [hg]
      exact hg
    · have hc : c < s.lasts.length := by
        by_contra hcon
        rw [List.getD_eq_default _ _ (le_of_not_lt hcon)] at hg
        cases hg
      simp only [obs_step]
      rw [hg]
      show (s.lasts.set c none).getD c none = none
      rw [List.getD_eq_getElem _ _ (by simpa using hc)]
      simp [List.getElem_set]
  · intro s c h
    simp only [obs_step]
    rw [h]

/-- Witness for C7 at concrete inputs: two consumers both attach to key 5,
one re-runs for key 6, and both clean up; the count of key 5 ends at 0 =
2 − 2, the invariant holds throughout, and the count is never negative. -/
theorem claim_C7_observer_count_witness :
    ObsInv (⟨fun _ => 0, [none, none]⟩ : ObsSystem Nat) ∧
    ((obs_trace (⟨fun _ => 0, [none, none]⟩ : ObsSystem Nat) 5
        [.run 0 5, .run 1 5, .run 0 6, .cleanup 1, .cleanup 0]).1.counts 5 =
      (⟨fun _ => 0, [none, none]⟩ : ObsSystem Nat).counts 5 +
        ((obs_trace (⟨fun _ => 0, [none, none]⟩ : ObsSystem Nat) 5
          [.run 0 5, .run 1 5, .run 0 6, .cleanup 1, .cleanup 0]).2.1 : Int) -
        ((obs_trace (⟨fun _ => 0, [none, none]⟩ : ObsSystem Nat) 5
          [.run 0 5, .run 1 5, .run 0 6, .cleanup 1, .cleanup 0]).2.2 : Int)) ∧
    0 ≤ (obs_trace (⟨fun _ => 0, [none, none]⟩ : ObsSystem Nat) 5
        [.run 0 5, .run 1 5, .run 0 6, .cleanup 1, .cleanup 0]).1.counts 5 := by
  have hinv : ObsInv (⟨fun _ => 0, [none, none]⟩ : ObsSystem Nat) := by
    intro k
    simp [countEq]
  have h := claim_C7_observer_count.1 (⟨fun _ => 0, [none, none]⟩ : ObsSystem Nat) 5
    [.run 0 5, .run 1 5, .run 0 6, .cleanup 1, .cleanup 0] hinv
  exact ⟨hinv, h.1, h.2.2⟩

end LeptosQuery
